import Mathlib

/-!
# Instruction decoding of the RISC-V emulator

A shallow embedding of `riscv/instruction_decoding.go`.

* A `uint32` is a natural number below `2 ^ 32`; every arithmetic operation of
  the source on `uint32` is followed by an explicit `% 2 ^ 32`.
* The signed Go types `int8`, `int32` and `int` are integers; the conversions
  `int8(x)`, `int32(x)` and `int(x)` of a `uint32` are `toInt8`, `toInt32`
  and `toInt`, which wrap the way the Go conversions do.
* The call `panic(...)` of `DecodePInstr` is the `Except.error` result.
-/

namespace Riscv

/-! ## Machine integers -/

/-- Go conversion `int8(x)` of an unsigned value: keep the low 8 bits and read
them as a two's complement number. -/
def toInt8 (x : Nat) : Int :=
  if x % 2 ^ 8 < 2 ^ 7 then ((x % 2 ^ 8 : Nat) : Int) else ((x % 2 ^ 8 : Nat) : Int) - 2 ^ 8

/-- Go conversion `int32(x)` of an unsigned value: keep the low 32 bits and
read them as a two's complement number. -/
def toInt32 (x : Nat) : Int :=
  if x % 2 ^ 32 < 2 ^ 31 then ((x % 2 ^ 32 : Nat) : Int) else ((x % 2 ^ 32 : Nat) : Int) - 2 ^ 32

/-- Go conversion `int(x)` of a `uint32`: `int` is 64 bits wide, so the value
is kept as it is. -/
def toInt (x : Nat) : Int := (x : Int)

/-! ## Helpers that the decoders call -/

/-- Modelled from the spec: `bitSliceBetween` is called by every decoder but
declared in another file of the package. Spec 4.1: the inclusive bit range
`lowBit .. highBit` of the word, counted from the least significant bit,
returned right-justified as an unsigned value of `highBit - lowBit + 1` bits. -/
def bitSliceBetween (word lowBit highBit : Nat) : Nat :=
  (word >>> lowBit) % 2 ^ (highBit - lowBit + 1)

/-- Modelled from the spec: `sext` is called by `DecodeIInstr` and
`DecodeUInstr` but declared in another file of the package. Spec 4.2
(`signExtend`): bit `fieldWidthBits - 1` of the raw value is the sign bit; if
it is set all higher bits of the 32-bit result are 1, otherwise they are 0. -/
def sext (rawValue fieldWidthBits : Nat) : Nat :=
  if rawValue.testBit (fieldWidthBits - 1) then
    rawValue % 2 ^ fieldWidthBits + (2 ^ 32 - 2 ^ fieldWidthBits)
  else
    rawValue % 2 ^ fieldWidthBits

/-- Modelled from the spec: `ReinterpreteAsSigned` is declared in another file
of the package; it reads the 32 bits of a `uint32` as an `int32`. -/
def ReinterpreteAsSigned (x : Nat) : Int := toInt32 x

/-! ## Instruction records

The struct declarations are in another file of the package; the field types
are the ones the decoders convert to (`int8(...)`, `int(...)`, `int32(...)`, or
no conversion for a `uint32` field). -/

/-- Modelled from the spec: struct `IInstr` (imm `int32`, rs1 `int`,
func3 `int8`, rd `int`, opcode `int8`). -/
structure IInstr where
  imm : Int
  rs1 : Int
  func3 : Int
  rd : Int
  opcode : Int
  deriving DecidableEq, Repr

/-- Modelled from the spec: struct `SInstr`, all fields `uint32`. -/
structure SInstr where
  imm1 : Nat
  rs2 : Nat
  rs1 : Nat
  func3 : Nat
  imm0 : Nat
  opcode : Nat
  deriving DecidableEq, Repr

/-- Modelled from the spec: struct `BInstr`, all fields `uint32`. -/
structure BInstr where
  imm3 : Nat
  imm2 : Nat
  rs2 : Nat
  rs1 : Nat
  func3 : Nat
  imm1 : Nat
  imm0 : Nat
  opcode : Nat
  deriving DecidableEq, Repr

/-- Modelled from the spec: struct `UInstr` (imm `int32`, rd `int32`,
opcode `int8`). -/
structure UInstr where
  imm : Int
  rd : Int
  opcode : Int
  deriving DecidableEq, Repr

/-- Modelled from the spec: struct `JInstr` (four `uint32` fragments, rd `int`,
opcode `int8`). -/
structure JInstr where
  imm3 : Nat
  imm2 : Nat
  imm1 : Nat
  imm0 : Nat
  rd : Int
  opcode : Int
  deriving DecidableEq, Repr

/-- Modelled from the spec: struct `RInstr` (func7 `int8`, rs2 `int`,
rs1 `int`, func3 `int8`, rd `int`, opcode `int8`). -/
structure RInstr where
  func7 : Int
  rs2 : Int
  rs1 : Int
  func3 : Int
  rd : Int
  opcode : Int
  deriving DecidableEq, Repr

/-! ## The decoders -/

/-- `DecodeIInstr` of `instruction_decoding.go`. -/
def DecodeIInstr (word : Nat) : IInstr :=
  let imm := bitSliceBetween word 20 31
  let rs1 := bitSliceBetween word 15 19
  let func3 := bitSliceBetween word 12 14
  let rd := bitSliceBetween word 7 11
  let opcode := bitSliceBetween word 0 6
  { imm := toInt32 (sext imm 12)
    rs1 := toInt rs1
    func3 := toInt8 func3
    rd := toInt rd
    opcode := toInt8 opcode }

/-- `DecodeSInstr` of `instruction_decoding.go`. -/
def DecodeSInstr (word : Nat) : SInstr :=
  let imm1 := bitSliceBetween word 25 31
  let rs2 := bitSliceBetween word 20 24
  let rs1 := bitSliceBetween word 15 19
  let func3 := bitSliceBetween word 12 14
  let imm0 := bitSliceBetween word 7 11
  let opcode := bitSliceBetween word 0 6
  { imm1 := imm1
    rs2 := rs2
    rs1 := rs1
    func3 := func3
    imm0 := imm0
    opcode := opcode }

/-- Method `BInstr.imm` of `instruction_decoding.go`: the sum of the shifted
fragments in `uint32` arithmetic (each shift and each addition wraps at
`2 ^ 32`). -/
def BInstr.imm (Instr : BInstr) : Nat :=
  (((Instr.imm0 +
      (Instr.imm1 <<< 1) % 2 ^ 32) % 2 ^ 32 +
      (Instr.imm2 <<< (4 + 1)) % 2 ^ 32) % 2 ^ 32 +
      (Instr.imm3 <<< (4 + 1 + 6)) % 2 ^ 32) % 2 ^ 32

/-- `DecodeBInstr` of `instruction_decoding.go`. -/
def DecodeBInstr (word : Nat) : BInstr :=
  let imm3 := bitSliceBetween word 31 31
  let imm2 := bitSliceBetween word 25 30
  let rs2 := bitSliceBetween word 20 24
  let rs1 := bitSliceBetween word 15 19
  let func3 := bitSliceBetween word 12 14
  let imm1 := bitSliceBetween word 8 11
  let imm0 := bitSliceBetween word 7 7
  let opcode := bitSliceBetween word 0 6
  { imm3 := imm3
    imm2 := imm2
    rs2 := rs2
    rs1 := rs1
    func3 := func3
    imm1 := imm1
    imm0 := imm0
    opcode := opcode }

/-- `DecodeUInstr` of `instruction_decoding.go`. -/
def DecodeUInstr (word : Nat) : UInstr :=
  let imm := bitSliceBetween word 12 31
  let rd := bitSliceBetween word 7 11
  let opcode := bitSliceBetween word 0 6
  { imm := ReinterpreteAsSigned (sext imm 12)
    rd := toInt32 rd
    opcode := toInt8 opcode }

/-- `DecodeJInstr` of `instruction_decoding.go`. -/
def DecodeJInstr (word : Nat) : JInstr :=
  let imm3 := bitSliceBetween word 31 31
  let imm2 := bitSliceBetween word 21 30
  let imm1 := bitSliceBetween word 20 20
  let imm0 := bitSliceBetween word 12 19
  let rd := bitSliceBetween word 7 11
  let opcode := bitSliceBetween word 0 6
  { imm3 := imm3
    imm2 := imm2
    imm1 := imm1
    imm0 := imm0
    rd := toInt rd
    opcode := toInt8 opcode }

/-- `DecodeRInstr` of `instruction_decoding.go`. -/
def DecodeRInstr (word : Nat) : RInstr :=
  let func7 := bitSliceBetween word 25 31
  let rs2 := bitSliceBetween word 20 24
  let rs1 := bitSliceBetween word 15 19
  let func3 := bitSliceBetween word 12 14
  let rd := bitSliceBetween word 7 11
  let opcode := bitSliceBetween word 0 6
  { func7 := toInt8 func7
    rs2 := toInt rs2
    rs1 := toInt rs1
    func3 := toInt8 func3
    rd := toInt rd
    opcode := toInt8 opcode }

/-- `DecodePInstr` of `instruction_decoding.go`: the body is a single `panic`,
so no `IInstr` is ever returned; the abort is the error result and carries the
message of the source. -/
def DecodePInstr (_word : Nat) : Except String IInstr :=
  Except.error "Decoding of P instruction not implemented."

/-! ## The decoders with the extractor's contract checked

Spec 4.1 gives `bitSliceBetween` the caller contract
`0 ≤ lowBit ≤ highBit ≤ 31`. The definitions below are the six decoders again,
call by call, with that contract tested at every call: the result is `none` as
soon as one call passes a range outside the contract. -/

/-- Modelled from the spec: the caller contract of spec 4.1 for
`bitSliceBetween`, `0 ≤ lowBit ≤ highBit ≤ 31`, tested before the extraction;
`none` stands for a call outside the contract. -/
def bitSliceBetweenChecked (word lowBit highBit : Nat) : Option Nat :=
  if 0 ≤ lowBit ∧ lowBit ≤ highBit ∧ highBit ≤ 31 then
    some (bitSliceBetween word lowBit highBit)
  else
    none

/-- `DecodeIInstr` with every extractor call checked against its contract. -/
def DecodeIInstrChecked (word : Nat) : Option IInstr := do
  let imm ← bitSliceBetweenChecked word 20 31
  let rs1 ← bitSliceBetweenChecked word 15 19
  let func3 ← bitSliceBetweenChecked word 12 14
  let rd ← bitSliceBetweenChecked word 7 11
  let opcode ← bitSliceBetweenChecked word 0 6
  pure
    { imm := toInt32 (sext imm 12)
      rs1 := toInt rs1
      func3 := toInt8 func3
      rd := toInt rd
      opcode := toInt8 opcode }

/-- `DecodeSInstr` with every extractor call checked against its contract. -/
def DecodeSInstrChecked (word : Nat) : Option SInstr := do
  let imm1 ← bitSliceBetweenChecked word 25 31
  let rs2 ← bitSliceBetweenChecked word 20 24
  let rs1 ← bitSliceBetweenChecked word 15 19
  let func3 ← bitSliceBetweenChecked word 12 14
  let imm0 ← bitSliceBetweenChecked word 7 11
  let opcode ← bitSliceBetweenChecked word 0 6
  pure
    { imm1 := imm1
      rs2 := rs2
      rs1 := rs1
      func3 := func3
      imm0 := imm0
      opcode := opcode }

/-- `DecodeBInstr` with every extractor call checked against its contract. -/
def DecodeBInstrChecked (word : Nat) : Option BInstr := do
  let imm3 ← bitSliceBetweenChecked word 31 31
  let imm2 ← bitSliceBetweenChecked word 25 30
  let rs2 ← bitSliceBetweenChecked word 20 24
  let rs1 ← bitSliceBetweenChecked word 15 19
  let func3 ← bitSliceBetweenChecked word 12 14
  let imm1 ← bitSliceBetweenChecked word 8 11
  let imm0 ← bitSliceBetweenChecked word 7 7
  let opcode ← bitSliceBetweenChecked word 0 6
  pure
    { imm3 := imm3
      imm2 := imm2
      rs2 := rs2
      rs1 := rs1
      func3 := func3
      imm1 := imm1
      imm0 := imm0
      opcode := opcode }

/-- `DecodeUInstr` with every extractor call checked against its contract. -/
def DecodeUInstrChecked (word : Nat) : Option UInstr := do
  let imm ← bitSliceBetweenChecked word 12 31
  let rd ← bitSliceBetweenChecked word 7 11
  let opcode ← bitSliceBetweenChecked word 0 6
  pure
    { imm := ReinterpreteAsSigned (sext imm 12)
      rd := toInt32 rd
      opcode := toInt8 opcode }

/-- `DecodeJInstr` with every extractor call checked against its contract. -/
def DecodeJInstrChecked (word : Nat) : Option JInstr := do
  let imm3 ← bitSliceBetweenChecked word 31 31
  let imm2 ← bitSliceBetweenChecked word 21 30
  let imm1 ← bitSliceBetweenChecked word 20 20
  let imm0 ← bitSliceBetweenChecked word 12 19
  let rd ← bitSliceBetweenChecked word 7 11
  let opcode ← bitSliceBetweenChecked word 0 6
  pure
    { imm3 := imm3
      imm2 := imm2
      imm1 := imm1
      imm0 := imm0
      rd := toInt rd
      opcode := toInt8 opcode }

/-- `DecodeRInstr` with every extractor call checked against its contract. -/
def DecodeRInstrChecked (word : Nat) : Option RInstr := do
  let func7 ← bitSliceBetweenChecked word 25 31
  let rs2 ← bitSliceBetweenChecked word 20 24
  let rs1 ← bitSliceBetweenChecked word 15 19
  let func3 ← bitSliceBetweenChecked word 12 14
  let rd ← bitSliceBetweenChecked word 7 11
  let opcode ← bitSliceBetweenChecked word 0 6
  pure
    { func7 := toInt8 func7
      rs2 := toInt rs2
      rs1 := toInt rs1
      func3 := toInt8 func3
      rd := toInt rd
      opcode := toInt8 opcode }

/-! ## Arithmetic form of the helpers -/

theorem bitSliceBetween_eq_div_mod (word lowBit highBit : Nat) :
    bitSliceBetween word lowBit highBit = word / 2 ^ lowBit % 2 ^ (highBit - lowBit + 1) := by
  unfold bitSliceBetween
  rw [Nat.shiftRight_eq_div_pow]

theorem bitSliceBetween_lt (word lowBit highBit : Nat) :
    bitSliceBetween word lowBit highBit < 2 ^ (highBit - lowBit + 1) := by
  unfold bitSliceBetween
  exact Nat.mod_lt _ (Nat.two_pow_pos _)

theorem bitSliceBetween_testBit (word lowBit highBit i : Nat) :
    (bitSliceBetween word lowBit highBit).testBit i
      = (decide (i < highBit - lowBit + 1) && word.testBit (lowBit + i)) := by
  unfold bitSliceBetween
  rw [Nat.testBit_mod_two_pow, Nat.testBit_shiftRight]

theorem toInt8_of_lt (x : Nat) (h : x < 2 ^ 7) : toInt8 x = (x : Int) := by
  have h8 : x % 2 ^ 8 = x := Nat.mod_eq_of_lt (by omega)
  unfold toInt8
  rw [h8, if_pos h]

theorem toInt32_of_lt (x : Nat) (h : x < 2 ^ 31) : toInt32 x = (x : Int) := by
  have h32 : x % 2 ^ 32 = x := Nat.mod_eq_of_lt (by omega)
  unfold toInt32
  rw [h32, if_pos h]

theorem toInt8_bitSliceBetween (word lowBit highBit : Nat) (h : highBit - lowBit + 1 ≤ 7) :
    toInt8 (bitSliceBetween word lowBit highBit) = (bitSliceBetween word lowBit highBit : Int) := by
  apply toInt8_of_lt
  exact Nat.lt_of_lt_of_le (bitSliceBetween_lt word lowBit highBit)
    (Nat.pow_le_pow_right (by decide) h)

theorem toInt32_bitSliceBetween (word lowBit highBit : Nat) (h : highBit - lowBit + 1 ≤ 31) :
    toInt32 (bitSliceBetween word lowBit highBit) = (bitSliceBetween word lowBit highBit : Int) := by
  apply toInt32_of_lt
  exact Nat.lt_of_lt_of_le (bitSliceBetween_lt word lowBit highBit)
    (Nat.pow_le_pow_right (by decide) h)

/-! ## Non-immediate fields -/

/-- C1: for every 32-bit word each decoder returns its non-immediate fields
from the bit ranges of the layout table: opcode is bits 0-6 in all six
decoders, rd is bits 7-11 in R, I, U and J, func3 is bits 12-14 and rs1 is bits
15-19 in R, I, S and B, rs2 is bits 20-24 in R, S and B, and func7 is bits
25-31 in R; each field is the non-negative number
`(word >> low) mod 2 ^ (high - low + 1)`. -/
theorem decode_fields_layout (word : Nat) (_hw : word < 2 ^ 32) :
    ((DecodeRInstr word).opcode = (((word >>> 0) % 2 ^ 7 : Nat) : Int)
      ∧ (DecodeRInstr word).rd = (((word >>> 7) % 2 ^ 5 : Nat) : Int)
      ∧ (DecodeRInstr word).func3 = (((word >>> 12) % 2 ^ 3 : Nat) : Int)
      ∧ (DecodeRInstr word).rs1 = (((word >>> 15) % 2 ^ 5 : Nat) : Int)
      ∧ (DecodeRInstr word).rs2 = (((word >>> 20) % 2 ^ 5 : Nat) : Int)
      ∧ (DecodeRInstr word).func7 = (((word >>> 25) % 2 ^ 7 : Nat) : Int))
    ∧ ((DecodeIInstr word).opcode = (((word >>> 0) % 2 ^ 7 : Nat) : Int)
      ∧ (DecodeIInstr word).rd = (((word >>> 7) % 2 ^ 5 : Nat) : Int)
      ∧ (DecodeIInstr word).func3 = (((word >>> 12) % 2 ^ 3 : Nat) : Int)
      ∧ (DecodeIInstr word).rs1 = (((word >>> 15) % 2 ^ 5 : Nat) : Int))
    ∧ ((DecodeSInstr word).opcode = (word >>> 0) % 2 ^ 7
      ∧ (DecodeSInstr word).func3 = (word >>> 12) % 2 ^ 3
      ∧ (DecodeSInstr word).rs1 = (word >>> 15) % 2 ^ 5
      ∧ (DecodeSInstr word).rs2 = (word >>> 20) % 2 ^ 5)
    ∧ ((DecodeBInstr word).opcode = (word >>> 0) % 2 ^ 7
      ∧ (DecodeBInstr word).func3 = (word >>> 12) % 2 ^ 3
      ∧ (DecodeBInstr word).rs1 = (word >>> 15) % 2 ^ 5
      ∧ (DecodeBInstr word).rs2 = (word >>> 20) % 2 ^ 5)
    ∧ ((DecodeUInstr word).opcode = (((word >>> 0) % 2 ^ 7 : Nat) : Int)
      ∧ (DecodeUInstr word).rd = (((word >>> 7) % 2 ^ 5 : Nat) : Int))
    ∧ ((DecodeJInstr word).opcode = (((word >>> 0) % 2 ^ 7 : Nat) : Int)
      ∧ (DecodeJInstr word).rd = (((word >>> 7) % 2 ^ 5 : Nat) : Int)) := by
  have o8 := toInt8_bitSliceBetween word 0 6 (by decide)
  have f8 := toInt8_bitSliceBetween word 12 14 (by decide)
  have g8 := toInt8_bitSliceBetween word 25 31 (by decide)
  have r32 := toInt32_bitSliceBetween word 7 11 (by decide)
  simp only [DecodeRInstr, DecodeIInstr, DecodeSInstr, DecodeBInstr, DecodeUInstr,
    DecodeJInstr, o8, f8, g8, r32, toInt]
  simp only [bitSliceBetween]
  simp

/-- Witness for C1 at the word `0x00C58533` (`add a0, a1, a2`): its rd field is
bits 7-11, the register 10. -/
theorem decode_fields_layout_witness :
    (0x00C58533 : Nat) < 2 ^ 32
      ∧ (DecodeRInstr 0x00C58533).rd = (((0x00C58533 >>> 7) % 2 ^ 5 : Nat) : Int)
      ∧ (DecodeRInstr 0x00C58533).rd = 10 :=
  ⟨by decide, (decode_fields_layout 0x00C58533 (by decide)).1.2.1, by decide⟩

/-! ## The I immediate -/

theorem sext_twelve_of_lt (v : Nat) (hv : v < 2 ^ 12) :
    sext v 12 = if v.testBit 11 then v + (2 ^ 32 - 2 ^ 12) else v := by
  unfold sext
  rw [Nat.mod_eq_of_lt hv]

theorem decodeI_imm_eq (word : Nat) :
    (DecodeIInstr word).imm =
      if word.testBit 31 then ((bitSliceBetween word 20 31 : Nat) : Int) - 2 ^ 12
      else ((bitSliceBetween word 20 31 : Nat) : Int) := by
  have hlt : bitSliceBetween word 20 31 < 2 ^ 12 := bitSliceBetween_lt word 20 31
  have hbit : (bitSliceBetween word 20 31).testBit 11 = word.testBit 31 := by
    rw [bitSliceBetween_testBit]; simp
  show toInt32 (sext (bitSliceBetween word 20 31) 12) = _
  rw [sext_twelve_of_lt _ hlt, hbit]
  cases word.testBit 31
  · simp only [Bool.false_eq_true, if_false]
    exact toInt32_of_lt _ (by omega)
  · simp only [if_true]
    unfold toInt32
    have h1 : (bitSliceBetween word 20 31 + (2 ^ 32 - 2 ^ 12)) % 2 ^ 32
        = bitSliceBetween word 20 31 + (2 ^ 32 - 2 ^ 12) := Nat.mod_eq_of_lt (by omega)
    rw [h1, if_neg (by omega)]
    push_cast
    omega

/-- C2: for every 32-bit word, `DecodeIInstr(word).imm` is the field in bits
20-31 sign-extended from 12 to 32 bits: the low 12 bits of the immediate are
bits 20-31 of the word, bits 12-31 of its 32-bit pattern all equal bit 31 of
the word, the value lies in `-2048 .. 2047`, a field of `0x800` decodes to
`-2048` and a field of `0x7FF` decodes to `2047`. -/
theorem decodeI_imm_sign_extended (word : Nat) (_hw : word < 2 ^ 32) :
    (DecodeIInstr word).imm % 2 ^ 12 = (((word >>> 20) % 2 ^ 12 : Nat) : Int)
    ∧ (∀ i, 12 ≤ i → i < 32 →
        ((DecodeIInstr word).imm % 2 ^ 32).toNat.testBit i = word.testBit 31)
    ∧ (-2048 ≤ (DecodeIInstr word).imm ∧ (DecodeIInstr word).imm ≤ 2047)
    ∧ ((word >>> 20) % 2 ^ 12 = 0x800 → (DecodeIInstr word).imm = -2048)
    ∧ ((word >>> 20) % 2 ^ 12 = 0x7FF → (DecodeIInstr word).imm = 2047) := by
  have hlt : bitSliceBetween word 20 31 < 2 ^ 12 := bitSliceBetween_lt word 20 31
  have hf : (word >>> 20) % 2 ^ 12 = bitSliceBetween word 20 31 := rfl
  have hbit : (bitSliceBetween word 20 31).testBit 11 = word.testBit 31 := by
    rw [bitSliceBetween_testBit]; simp
  have hb11 := @Nat.testBit_to_div_mod 11 (bitSliceBetween word 20 31)
  rw [hbit] at hb11
  rw [hf, decodeI_imm_eq]
  generalize bitSliceBetween word 20 31 = f at *
  cases hb : word.testBit 31
  · rw [hb] at hb11
    have hlow : f / 2 ^ 11 % 2 ≠ 1 := by simpa using hb11.symm
    simp only [Bool.false_eq_true, if_false]
    refine ⟨by omega, ?_, by omega, by omega, by omega⟩
    intro i hi _
    have hu : (((f : Int) % 2 ^ 32).toNat) = f := by omega
    rw [hu]
    exact Nat.testBit_lt_two_pow (Nat.lt_of_lt_of_le (by omega) (Nat.pow_le_pow_right (by decide) hi))
  · rw [hb] at hb11
    have hhigh : f / 2 ^ 11 % 2 = 1 := by simpa using hb11.symm
    simp only [if_true]
    refine ⟨by omega, ?_, by omega, by omega, by omega⟩
    intro i hi hi32
    have hu : ((((f : Int) - 2 ^ 12) % 2 ^ 32).toNat) = 2 ^ 12 * (2 ^ 20 - 1) + f := by omega
    rw [hu, Nat.testBit_mul_pow_two_add _ hlt, if_neg (by omega), Nat.testBit_two_pow_sub_one]
    simp only [decide_eq_true_eq]
    omega

/-- Witness for C2 at the word `0x80000000`, whose field in bits 20-31 is
`0x800`. -/
theorem decodeI_imm_sign_extended_witness :
    0x80000000 < 2 ^ 32 ∧ (DecodeIInstr 0x80000000).imm = -2048 :=
  ⟨by decide, (decodeI_imm_sign_extended 0x80000000 (by decide)).2.2.2.1 (by decide)⟩

/-! ## The U immediate -/

/-- C3: evaluation of `DecodeUInstr` at the word `0x00001000`, whose bits
12-31 hold the value 1, and at `0x00800000`, whose bits 12-31 hold `0x800`.
The decoder returns 1 and -2048; the word with its low 12 bits cleared, read
as a signed 32-bit value, is 4096 and 8388608. -/
theorem decodeU_imm_at_failing_input :
    bitSliceBetween 0x00001000 12 31 = 1
    ∧ (DecodeUInstr 0x00001000).imm = 1
    ∧ ReinterpreteAsSigned (0x00001000 - 0x00001000 % 2 ^ 12) = 4096
    ∧ bitSliceBetween 0x00800000 12 31 = 0x800
    ∧ (DecodeUInstr 0x00800000).imm = -2048
    ∧ ReinterpreteAsSigned (0x00800000 - 0x00800000 % 2 ^ 12) = 8388608 := by
  decide

/-! ## The B immediate -/

theorem BInstr_imm_eq_sum (b : BInstr) (h0 : b.imm0 < 2) (h1 : b.imm1 < 16)
    (h2 : b.imm2 < 64) (h3 : b.imm3 < 2) :
    b.imm = b.imm0 + 2 * b.imm1 + 32 * b.imm2 + 2048 * b.imm3 := by
  unfold BInstr.imm
  simp only [Nat.shiftLeft_eq]
  norm_num
  omega

theorem BInstr_imm_or (b : BInstr) (h0 : b.imm0 < 2) (h1 : b.imm1 < 16)
    (h2 : b.imm2 < 64) (h3 : b.imm3 < 2) :
    b.imm = b.imm0 ||| b.imm1 <<< 1 ||| b.imm2 <<< (4 + 1) ||| b.imm3 <<< (4 + 1 + 6) := by
  rw [BInstr_imm_eq_sum b h0 h1 h2 h3]
  generalize b.imm0 = a0 at *
  generalize b.imm1 = a1 at *
  generalize b.imm2 = a2 at *
  generalize b.imm3 = a3 at *
  have s1 : 2 ^ 1 * a1 + a0 = 2 ^ 1 * a1 ||| a0 := Nat.mul_add_lt_is_or (by omega) a1
  have s2 : 2 ^ 5 * a2 + (2 ^ 1 * a1 + a0) = 2 ^ 5 * a2 ||| (2 ^ 1 * a1 + a0) :=
    Nat.mul_add_lt_is_or (by omega) a2
  have s3 : 2 ^ 11 * a3 + (2 ^ 5 * a2 + (2 ^ 1 * a1 + a0))
      = 2 ^ 11 * a3 ||| (2 ^ 5 * a2 + (2 ^ 1 * a1 + a0)) :=
    Nat.mul_add_lt_is_or (by omega) a3
  have t1 : a1 <<< 1 = 2 ^ 1 * a1 := by rw [Nat.shiftLeft_eq, Nat.mul_comm]
  have t2 : a2 <<< (4 + 1) = 2 ^ 5 * a2 := by rw [Nat.shiftLeft_eq, Nat.mul_comm]
  have t3 : a3 <<< (4 + 1 + 6) = 2 ^ 11 * a3 := by rw [Nat.shiftLeft_eq, Nat.mul_comm]
  rw [t1, t2, t3, Nat.or_comm a0, Nat.or_comm (2 ^ 1 * a1 ||| a0),
    Nat.or_comm (2 ^ 5 * a2 ||| (2 ^ 1 * a1 ||| a0)), ← s1, ← s2, ← s3]
  omega

theorem BInstr_imm_slices (b : BInstr) (h0 : b.imm0 < 2) (h1 : b.imm1 < 16)
    (h2 : b.imm2 < 64) (h3 : b.imm3 < 2) :
    bitSliceBetween b.imm 0 0 = b.imm0 ∧ bitSliceBetween b.imm 1 4 = b.imm1
      ∧ bitSliceBetween b.imm 5 10 = b.imm2 ∧ bitSliceBetween b.imm 11 11 = b.imm3 := by
  rw [BInstr_imm_eq_sum b h0 h1 h2 h3]
  simp only [bitSliceBetween_eq_div_mod]
  generalize b.imm0 = a0 at *
  generalize b.imm1 = a1 at *
  generalize b.imm2 = a2 at *
  generalize b.imm3 = a3 at *
  norm_num
  refine ⟨by omega, by omega, by omega, by omega⟩

theorem decodeB_fragment_bounds (word : Nat) :
    (DecodeBInstr word).imm0 < 2 ∧ (DecodeBInstr word).imm1 < 16
      ∧ (DecodeBInstr word).imm2 < 64 ∧ (DecodeBInstr word).imm3 < 2 :=
  ⟨bitSliceBetween_lt word 7 7, bitSliceBetween_lt word 8 11,
    bitSliceBetween_lt word 25 30, bitSliceBetween_lt word 31 31⟩

theorem decodeB_imm_eq_sum (word : Nat) :
    (DecodeBInstr word).imm
      = (DecodeBInstr word).imm0 + 2 * (DecodeBInstr word).imm1
        + 32 * (DecodeBInstr word).imm2 + 2048 * (DecodeBInstr word).imm3 := by
  obtain ⟨h0, h1, h2, h3⟩ := decodeB_fragment_bounds word
  exact BInstr_imm_eq_sum _ h0 h1 h2 h3

theorem decodeB_imm_lt (word : Nat) : (DecodeBInstr word).imm < 2 ^ 12 := by
  obtain ⟨h0, h1, h2, h3⟩ := decodeB_fragment_bounds word
  rw [decodeB_imm_eq_sum]
  omega

/-- C4, counterexample: the word `0x00000080` (only bit 7 set) decodes to a B
instruction whose assembled immediate is 1, an odd number. -/
theorem decodeB_imm_low_bit_counterexample :
    (0x00000080 : Nat) < 2 ^ 32 ∧ (DecodeBInstr 0x00000080).imm = 1
      ∧ ¬ (DecodeBInstr 0x00000080).imm % 2 = 0 := by
  decide

/-- C4, amended: for every 32-bit word the low bit of the assembled immediate
of `DecodeBInstr(word)` is the fragment `imm0`, which is bit 7 of the word; the
immediate is even exactly when bit 7 of the word is clear. -/
theorem decodeB_imm_low_bit (word : Nat) (_hw : word < 2 ^ 32) :
    (DecodeBInstr word).imm % 2 = (DecodeBInstr word).imm0
    ∧ (DecodeBInstr word).imm0 = (word >>> 7) % 2 ^ 1
    ∧ ((DecodeBInstr word).imm % 2 = 0 ↔ word.testBit 7 = false) := by
  obtain ⟨h0, h1, h2, h3⟩ := decodeB_fragment_bounds word
  have e0 : (DecodeBInstr word).imm0 = (word >>> 7) % 2 ^ 1 := rfl
  have hb := @Nat.testBit_to_div_mod 7 word
  have hlow : (DecodeBInstr word).imm % 2 = (DecodeBInstr word).imm0 := by
    rw [decodeB_imm_eq_sum]; omega
  refine ⟨hlow, e0, ?_⟩
  rw [hlow, e0, hb, Nat.shiftRight_eq_div_pow]
  simp only [decide_eq_false_iff_not]
  omega

/-- Witness for the amended C4 at the word `0x00000080`. -/
theorem decodeB_imm_low_bit_witness :
    (0x00000080 : Nat) < 2 ^ 32
      ∧ (DecodeBInstr 0x00000080).imm % 2 = (DecodeBInstr 0x00000080).imm0 :=
  ⟨by decide, (decodeB_imm_low_bit 0x00000080 (by decide)).1⟩

/-- C5: for every 32-bit word, in the assembled immediate of
`DecodeBInstr(word)` bits 1-4 are the fragment `imm1` (word bits 8-11), bits
5-10 are the fragment `imm2` (word bits 25-30) and bit 11 is the fragment
`imm3` (word bit 31); no addition carries, so the sum is the bitwise OR of the
shifted fragments. -/
theorem decodeB_imm_fragments_in_place (word : Nat) (_hw : word < 2 ^ 32) :
    (bitSliceBetween (DecodeBInstr word).imm 1 4 = (DecodeBInstr word).imm1
      ∧ (DecodeBInstr word).imm1 = (word >>> 8) % 2 ^ 4)
    ∧ (bitSliceBetween (DecodeBInstr word).imm 5 10 = (DecodeBInstr word).imm2
      ∧ (DecodeBInstr word).imm2 = (word >>> 25) % 2 ^ 6)
    ∧ (bitSliceBetween (DecodeBInstr word).imm 11 11 = (DecodeBInstr word).imm3
      ∧ (DecodeBInstr word).imm3 = (word >>> 31) % 2 ^ 1)
    ∧ (DecodeBInstr word).imm
        = (DecodeBInstr word).imm0 ||| (DecodeBInstr word).imm1 <<< 1
          ||| (DecodeBInstr word).imm2 <<< (4 + 1)
          ||| (DecodeBInstr word).imm3 <<< (4 + 1 + 6) := by
  obtain ⟨h0, h1, h2, h3⟩ := decodeB_fragment_bounds word
  obtain ⟨_, s1, s2, s3⟩ := BInstr_imm_slices _ h0 h1 h2 h3
  exact ⟨⟨s1, rfl⟩, ⟨s2, rfl⟩, ⟨s3, rfl⟩, BInstr_imm_or _ h0 h1 h2 h3⟩

/-- Witness for C5 at the word `0xFE000F80`, in which every immediate bit of
the B layout is set. -/
theorem decodeB_imm_fragments_in_place_witness :
    (0xFE000F80 : Nat) < 2 ^ 32
      ∧ bitSliceBetween (DecodeBInstr 0xFE000F80).imm 5 10 = (DecodeBInstr 0xFE000F80).imm2
      ∧ (DecodeBInstr 0xFE000F80).imm2 = 63 :=
  ⟨by decide, (decodeB_imm_fragments_in_place 0xFE000F80 (by decide)).2.1.1, by decide⟩

/-- C6, counterexample: the word `0x80000000` has bit 31 set, yet the assembled
immediate of its B decoding is 2048: bit 12 and every bit above it are 0, and
read as a signed 32-bit value it is 2048, not a negative number. -/
theorem decodeB_imm_sign_counterexample :
    (0x80000000 : Nat) < 2 ^ 32 ∧ Nat.testBit 0x80000000 31 = true
      ∧ (DecodeBInstr 0x80000000).imm = 2048
      ∧ (DecodeBInstr 0x80000000).imm >>> 12 = 0
      ∧ ReinterpreteAsSigned (DecodeBInstr 0x80000000).imm = 2048
      ∧ ¬ ReinterpreteAsSigned (DecodeBInstr 0x80000000).imm < 0 := by
  decide

/-- C6, amended: the B immediate is zero-extended. For every 32-bit word the
assembled immediate of `DecodeBInstr(word)` is below 4096, so bit 12 and every
bit above it are 0 and, read as a signed 32-bit value, it is the same
non-negative number whether bit 31 of the word is set or clear; bit 31 of the
word is bit 11 of the immediate. -/
theorem decodeB_imm_zero_extended (word : Nat) (_hw : word < 2 ^ 32) :
    (DecodeBInstr word).imm < 2 ^ 12
    ∧ (∀ i, 12 ≤ i → (DecodeBInstr word).imm.testBit i = false)
    ∧ ReinterpreteAsSigned (DecodeBInstr word).imm = ((DecodeBInstr word).imm : Int)
    ∧ 0 ≤ ReinterpreteAsSigned (DecodeBInstr word).imm
    ∧ (DecodeBInstr word).imm.testBit 11 = word.testBit 31 := by
  have hlt := decodeB_imm_lt word
  have hs : ReinterpreteAsSigned (DecodeBInstr word).imm = ((DecodeBInstr word).imm : Int) :=
    toInt32_of_lt _ (by omega)
  obtain ⟨h0, h1, h2, h3⟩ := decodeB_fragment_bounds word
  obtain ⟨_, _, _, s3⟩ := BInstr_imm_slices _ h0 h1 h2 h3
  refine ⟨hlt, ?_, hs, ?_, ?_⟩
  · intro i hi
    exact Nat.testBit_lt_two_pow
      (Nat.lt_of_lt_of_le hlt (Nat.pow_le_pow_right (by decide) hi))
  · rw [hs]; exact Int.ofNat_nonneg _
  · have e3 : (DecodeBInstr word).imm3 = bitSliceBetween word 31 31 := rfl
    have k1 := bitSliceBetween_testBit (DecodeBInstr word).imm 11 11 0
    have k2 := bitSliceBetween_testBit word 31 31 0
    rw [s3, e3, k2] at k1
    simpa using k1.symm

/-- Witness for the amended C6 at the word `0x80000000`. -/
theorem decodeB_imm_zero_extended_witness :
    (0x80000000 : Nat) < 2 ^ 32 ∧ 0 ≤ ReinterpreteAsSigned (DecodeBInstr 0x80000000).imm :=
  ⟨by decide, (decodeB_imm_zero_extended 0x80000000 (by decide)).2.2.2.1⟩

/-! ## The S and J fragments -/

/-- C7: for every 32-bit word `DecodeSInstr` returns `imm0` = bits 7-11 (below
32) and `imm1` = bits 25-31 (below 128); so for every store offset `v` below
4096, a word that carries `v mod 32` in bits 7-11 and `v div 32` in bits 25-31
decodes to fragments with `imm0 + 32 * imm1 = v`, and for `v` below 32 the
offset is `imm0` alone, with `imm1 = 0`. -/
theorem decodeS_fragments (word : Nat) (_hw : word < 2 ^ 32) :
    ((DecodeSInstr word).imm0 = (word >>> 7) % 2 ^ 5 ∧ (DecodeSInstr word).imm0 < 32)
    ∧ ((DecodeSInstr word).imm1 = (word >>> 25) % 2 ^ 7 ∧ (DecodeSInstr word).imm1 < 128)
    ∧ ∀ v, v < 4096 → (word >>> 7) % 2 ^ 5 = v % 32 → (word >>> 25) % 2 ^ 7 = v / 32 →
        (DecodeSInstr word).imm0 + 32 * (DecodeSInstr word).imm1 = v
        ∧ (v < 32 → (DecodeSInstr word).imm1 = 0 ∧ (DecodeSInstr word).imm0 = v) := by
  have e0 : (DecodeSInstr word).imm0 = (word >>> 7) % 2 ^ 5 := rfl
  have e1 : (DecodeSInstr word).imm1 = (word >>> 25) % 2 ^ 7 := rfl
  have b0 : (DecodeSInstr word).imm0 < 2 ^ 5 := bitSliceBetween_lt word 7 11
  have b1 : (DecodeSInstr word).imm1 < 2 ^ 7 := bitSliceBetween_lt word 25 31
  refine ⟨⟨e0, b0⟩, ⟨e1, b1⟩, ?_⟩
  intro v _ hlow hhigh
  rw [e0, e1, hlow, hhigh]
  refine ⟨by omega, fun hv => ⟨by omega, by omega⟩⟩

/-- Witness for C7 at the store words `0x00000023`, `0x00000FA3` and
`0x02000FA3`, which carry the offsets 0, 31 and 63. -/
theorem decodeS_fragments_witness :
    ((0x00000023 : Nat) < 2 ^ 32
      ∧ (DecodeSInstr 0x00000023).imm0 + 32 * (DecodeSInstr 0x00000023).imm1 = 0)
    ∧ ((0x00000FA3 : Nat) < 2 ^ 32
      ∧ (DecodeSInstr 0x00000FA3).imm0 + 32 * (DecodeSInstr 0x00000FA3).imm1 = 31)
    ∧ ((0x02000FA3 : Nat) < 2 ^ 32
      ∧ (DecodeSInstr 0x02000FA3).imm0 + 32 * (DecodeSInstr 0x02000FA3).imm1 = 63) :=
  ⟨⟨by decide,
      ((decodeS_fragments 0x00000023 (by decide)).2.2 0 (by decide) (by decide) (by decide)).1⟩,
    ⟨by decide,
      ((decodeS_fragments 0x00000FA3 (by decide)).2.2 31 (by decide) (by decide) (by decide)).1⟩,
    ⟨by decide,
      ((decodeS_fragments 0x02000FA3 (by decide)).2.2 63 (by decide) (by decide) (by decide)).1⟩⟩

/-- C8: for every 32-bit word `DecodeJInstr` returns the four immediate
fragments from the bit ranges of the table, right-justified and unsigned:
`imm0` = bits 12-19 (below 256), `imm1` = bit 20 (below 2), `imm2` = bits 21-30
(below 1024) and `imm3` = bit 31 (below 2). -/
theorem decodeJ_fragments (word : Nat) (_hw : word < 2 ^ 32) :
    ((DecodeJInstr word).imm0 = (word >>> 12) % 2 ^ 8 ∧ (DecodeJInstr word).imm0 < 256)
    ∧ ((DecodeJInstr word).imm1 = (word >>> 20) % 2 ^ 1 ∧ (DecodeJInstr word).imm1 < 2)
    ∧ ((DecodeJInstr word).imm2 = (word >>> 21) % 2 ^ 10 ∧ (DecodeJInstr word).imm2 < 1024)
    ∧ ((DecodeJInstr word).imm3 = (word >>> 31) % 2 ^ 1 ∧ (DecodeJInstr word).imm3 < 2) :=
  ⟨⟨rfl, bitSliceBetween_lt word 12 19⟩, ⟨rfl, bitSliceBetween_lt word 20 20⟩,
    ⟨rfl, bitSliceBetween_lt word 21 30⟩, ⟨rfl, bitSliceBetween_lt word 31 31⟩⟩

/-- Witness for C8 at the word `0xABCDE0EF`. -/
theorem decodeJ_fragments_witness :
    (0xABCDE0EF : Nat) < 2 ^ 32
      ∧ (DecodeJInstr 0xABCDE0EF).imm0 = (0xABCDE0EF >>> 12) % 2 ^ 8
      ∧ (DecodeJInstr 0xABCDE0EF).imm0 = 0xDE :=
  ⟨by decide, (decodeJ_fragments 0xABCDE0EF (by decide)).1.1, by decide⟩

/-! ## Building a B instruction from an offset -/

/-- C9: a B instruction built from a branch offset reports that offset. For
every `v` below 4096, the `BInstr` whose fragments are the slices of `v`
(`imm0` = bit 0, `imm1` = bits 1-4, `imm2` = bits 5-10, `imm3` = bit 11), with
any register, func3 and opcode fields, has `imm() = v`. -/
theorem BInstr_imm_of_offset (v : Nat) (hv : v < 4096) (rs2 rs1 func3 opcode : Nat) :
    BInstr.imm
      { imm3 := bitSliceBetween v 11 11
        imm2 := bitSliceBetween v 5 10
        rs2 := rs2
        rs1 := rs1
        func3 := func3
        imm1 := bitSliceBetween v 1 4
        imm0 := bitSliceBetween v 0 0
        opcode := opcode } = v := by
  rw [BInstr_imm_eq_sum _ (bitSliceBetween_lt v 0 0) (bitSliceBetween_lt v 1 4)
    (bitSliceBetween_lt v 5 10) (bitSliceBetween_lt v 11 11)]
  simp only [bitSliceBetween_eq_div_mod]
  norm_num
  omega

/-- Witness for C9 at the offset 10 of `TestBEQ`, with rs1 = 1, rs2 = 2 and the
branch opcode `0x63`. -/
theorem BInstr_imm_of_offset_witness :
    (10 : Nat) < 4096
      ∧ BInstr.imm
          { imm3 := bitSliceBetween 10 11 11
            imm2 := bitSliceBetween 10 5 10
            rs2 := 2
            rs1 := 1
            func3 := 0
            imm1 := bitSliceBetween 10 1 4
            imm0 := bitSliceBetween 10 0 0
            opcode := 0x63 } = 10 :=
  ⟨by decide, BInstr_imm_of_offset 10 (by decide) 2 1 0 0x63⟩

/-! ## The unimplemented P decoder -/

/-- C10: for every 32-bit word `DecodePInstr` fails with the not-implemented
error and returns no instruction value: its result is the error carrying the
message of the source, it is never a successful result, in particular neither
the zeroed `IInstr` nor the I decoding of any word, and it is not an `ok`
result at all. -/
theorem decodeP_not_implemented (word : Nat) (_hw : word < 2 ^ 32) :
    DecodePInstr word = Except.error "Decoding of P instruction not implemented."
    ∧ (∀ i : IInstr, DecodePInstr word ≠ Except.ok i)
    ∧ DecodePInstr word ≠ Except.ok ⟨0, 0, 0, 0, 0⟩
    ∧ (∀ w, DecodePInstr word ≠ Except.ok (DecodeIInstr w))
    ∧ (DecodePInstr word).toBool = false := by
  refine ⟨rfl, ?_, ?_, ?_, rfl⟩
  · intro i h
    cases h
  · intro h
    cases h
  · intro w h
    cases h

/-- Witness for C10 at the word `0x00000001`. -/
theorem decodeP_not_implemented_witness :
    (0x00000001 : Nat) < 2 ^ 32 ∧ (DecodePInstr 0x00000001).toBool = false :=
  ⟨by decide, (decodeP_not_implemented 0x00000001 (by decide)).2.2.2.2⟩

/-! ## Totality of the decoders -/

theorem bitSliceBetweenChecked_of_valid (word lowBit highBit : Nat)
    (h : lowBit ≤ highBit ∧ highBit ≤ 31) :
    bitSliceBetweenChecked word lowBit highBit = some (bitSliceBetween word lowBit highBit) := by
  unfold bitSliceBetweenChecked
  rw [if_pos ⟨Nat.zero_le _, h⟩]

theorem bitSliceBetweenChecked_of_invalid (word lowBit highBit : Nat)
    (h : highBit < lowBit ∨ 31 < highBit) :
    bitSliceBetweenChecked word lowBit highBit = none := by
  unfold bitSliceBetweenChecked
  rw [if_neg (by omega)]

/-- C11: the six format decoders are total. For every 32-bit word each call a
decoder makes to the bit-field extractor passes a range with
`0 ≤ lowBit ≤ highBit ≤ 31`, so the decoder with the contract checked at every
call never fails and returns exactly the instruction of the decoder itself. -/
theorem decoders_total (word : Nat) (_hw : word < 2 ^ 32) :
    DecodeRInstrChecked word = some (DecodeRInstr word)
    ∧ DecodeIInstrChecked word = some (DecodeIInstr word)
    ∧ DecodeSInstrChecked word = some (DecodeSInstr word)
    ∧ DecodeBInstrChecked word = some (DecodeBInstr word)
    ∧ DecodeUInstrChecked word = some (DecodeUInstr word)
    ∧ DecodeJInstrChecked word = some (DecodeJInstr word) := by
  refine ⟨?_, ?_, ?_, ?_, ?_, ?_⟩
  · simp [DecodeRInstrChecked, bitSliceBetweenChecked, DecodeRInstr]
  · simp [DecodeIInstrChecked, bitSliceBetweenChecked, DecodeIInstr]
  · simp [DecodeSInstrChecked, bitSliceBetweenChecked, DecodeSInstr]
  · simp [DecodeBInstrChecked, bitSliceBetweenChecked, DecodeBInstr]
  · simp [DecodeUInstrChecked, bitSliceBetweenChecked, DecodeUInstr]
  · simp [DecodeJInstrChecked, bitSliceBetweenChecked, DecodeJInstr]

/-- Witness for C11 at the word `0xFFFFFFFF`. -/
theorem decoders_total_witness :
    (0xFFFFFFFF : Nat) < 2 ^ 32
      ∧ DecodeRInstrChecked 0xFFFFFFFF = some (DecodeRInstr 0xFFFFFFFF)
      ∧ DecodeRInstr 0xFFFFFFFF = ⟨127, 31, 31, 7, 31, 127⟩ :=
  ⟨by decide, (decoders_total 0xFFFFFFFF (by decide)).1, by decide⟩

/-! ## Ranges of the decoded fields -/

theorem bitSliceBetween_cast_bounds (word lowBit highBit : Nat) :
    (0 : Int) ≤ ((bitSliceBetween word lowBit highBit : Nat) : Int)
      ∧ ((bitSliceBetween word lowBit highBit : Nat) : Int) < 2 ^ (highBit - lowBit + 1) := by
  refine ⟨Int.ofNat_nonneg _, ?_⟩
  exact_mod_cast bitSliceBetween_lt word lowBit highBit

theorem decodeR_eq (word : Nat) :
    DecodeRInstr word =
      { func7 := ((bitSliceBetween word 25 31 : Nat) : Int)
        rs2 := ((bitSliceBetween word 20 24 : Nat) : Int)
        rs1 := ((bitSliceBetween word 15 19 : Nat) : Int)
        func3 := ((bitSliceBetween word 12 14 : Nat) : Int)
        rd := ((bitSliceBetween word 7 11 : Nat) : Int)
        opcode := ((bitSliceBetween word 0 6 : Nat) : Int) } := by
  simp only [DecodeRInstr, toInt, toInt8_bitSliceBetween word 0 6 (by decide),
    toInt8_bitSliceBetween word 12 14 (by decide), toInt8_bitSliceBetween word 25 31 (by decide)]

theorem decodeI_fields (word : Nat) :
    (DecodeIInstr word).rs1 = ((bitSliceBetween word 15 19 : Nat) : Int)
      ∧ (DecodeIInstr word).func3 = ((bitSliceBetween word 12 14 : Nat) : Int)
      ∧ (DecodeIInstr word).rd = ((bitSliceBetween word 7 11 : Nat) : Int)
      ∧ (DecodeIInstr word).opcode = ((bitSliceBetween word 0 6 : Nat) : Int) :=
  ⟨rfl, toInt8_bitSliceBetween word 12 14 (by decide), rfl,
    toInt8_bitSliceBetween word 0 6 (by decide)⟩

theorem decodeU_fields (word : Nat) :
    (DecodeUInstr word).rd = ((bitSliceBetween word 7 11 : Nat) : Int)
      ∧ (DecodeUInstr word).opcode = ((bitSliceBetween word 0 6 : Nat) : Int) :=
  ⟨toInt32_bitSliceBetween word 7 11 (by decide), toInt8_bitSliceBetween word 0 6 (by decide)⟩

theorem decodeJ_fields (word : Nat) :
    (DecodeJInstr word).rd = ((bitSliceBetween word 7 11 : Nat) : Int)
      ∧ (DecodeJInstr word).opcode = ((bitSliceBetween word 0 6 : Nat) : Int) :=
  ⟨rfl, toInt8_bitSliceBetween word 0 6 (by decide)⟩

/-- C12: for every 32-bit word every decoded field lies within the range of
its bit width and no narrowing conversion wraps: the register indices rd, rs1
and rs2 are in `0 .. 31`, func3 is in `0 .. 7`, and the 7-bit opcode and func7,
converted to `int8`, are in `0 .. 127`, in every decoder that produces them;
each converted field is the unsigned slice itself. -/
theorem decoded_fields_in_range (word : Nat) (_hw : word < 2 ^ 32) :
    ((0 ≤ (DecodeRInstr word).rd ∧ (DecodeRInstr word).rd ≤ 31)
      ∧ (0 ≤ (DecodeRInstr word).rs1 ∧ (DecodeRInstr word).rs1 ≤ 31)
      ∧ (0 ≤ (DecodeRInstr word).rs2 ∧ (DecodeRInstr word).rs2 ≤ 31)
      ∧ (0 ≤ (DecodeRInstr word).func3 ∧ (DecodeRInstr word).func3 ≤ 7)
      ∧ (0 ≤ (DecodeRInstr word).opcode ∧ (DecodeRInstr word).opcode ≤ 127)
      ∧ (0 ≤ (DecodeRInstr word).func7 ∧ (DecodeRInstr word).func7 ≤ 127))
    ∧ ((0 ≤ (DecodeIInstr word).rd ∧ (DecodeIInstr word).rd ≤ 31)
      ∧ (0 ≤ (DecodeIInstr word).rs1 ∧ (DecodeIInstr word).rs1 ≤ 31)
      ∧ (0 ≤ (DecodeIInstr word).func3 ∧ (DecodeIInstr word).func3 ≤ 7)
      ∧ (0 ≤ (DecodeIInstr word).opcode ∧ (DecodeIInstr word).opcode ≤ 127))
    ∧ ((DecodeSInstr word).rs1 ≤ 31 ∧ (DecodeSInstr word).rs2 ≤ 31
      ∧ (DecodeSInstr word).func3 ≤ 7 ∧ (DecodeSInstr word).opcode ≤ 127)
    ∧ ((DecodeBInstr word).rs1 ≤ 31 ∧ (DecodeBInstr word).rs2 ≤ 31
      ∧ (DecodeBInstr word).func3 ≤ 7 ∧ (DecodeBInstr word).opcode ≤ 127)
    ∧ ((0 ≤ (DecodeUInstr word).rd ∧ (DecodeUInstr word).rd ≤ 31)
      ∧ (0 ≤ (DecodeUInstr word).opcode ∧ (DecodeUInstr word).opcode ≤ 127))
    ∧ ((0 ≤ (DecodeJInstr word).rd ∧ (DecodeJInstr word).rd ≤ 31)
      ∧ (0 ≤ (DecodeJInstr word).opcode ∧ (DecodeJInstr word).opcode ≤ 127))
    ∧ (toInt8 (bitSliceBetween word 0 6) = ((bitSliceBetween word 0 6 : Nat) : Int)
      ∧ toInt8 (bitSliceBetween word 12 14) = ((bitSliceBetween word 12 14 : Nat) : Int)
      ∧ toInt8 (bitSliceBetween word 25 31) = ((bitSliceBetween word 25 31 : Nat) : Int)
      ∧ toInt32 (bitSliceBetween word 7 11) = ((bitSliceBetween word 7 11 : Nat) : Int)) := by
  have o := bitSliceBetween_cast_bounds word 0 6
  have d := bitSliceBetween_cast_bounds word 7 11
  have f := bitSliceBetween_cast_bounds word 12 14
  have r1 := bitSliceBetween_cast_bounds word 15 19
  have r2 := bitSliceBetween_cast_bounds word 20 24
  have g := bitSliceBetween_cast_bounds word 25 31
  have no := bitSliceBetween_lt word 0 6
  have nf := bitSliceBetween_lt word 12 14
  have n1 := bitSliceBetween_lt word 15 19
  have n2 := bitSliceBetween_lt word 20 24
  norm_num at o d f r1 r2 g no nf n1 n2
  obtain ⟨i1, i2, i3, i4⟩ := decodeI_fields word
  obtain ⟨u1, u2⟩ := decodeU_fields word
  obtain ⟨j1, j2⟩ := decodeJ_fields word
  have eS : DecodeSInstr word = ⟨bitSliceBetween word 25 31, bitSliceBetween word 20 24,
    bitSliceBetween word 15 19, bitSliceBetween word 12 14, bitSliceBetween word 7 11,
    bitSliceBetween word 0 6⟩ := rfl
  have eB : DecodeBInstr word = ⟨bitSliceBetween word 31 31, bitSliceBetween word 25 30,
    bitSliceBetween word 20 24, bitSliceBetween word 15 19, bitSliceBetween word 12 14,
    bitSliceBetween word 8 11, bitSliceBetween word 7 7, bitSliceBetween word 0 6⟩ := rfl
  rw [decodeR_eq, i1, i2, i3, i4, u1, u2, j1, j2, eS, eB]
  dsimp only
  refine ⟨⟨?_, ?_, ?_, ?_, ?_, ?_⟩, ⟨?_, ?_, ?_, ?_⟩, ⟨?_, ?_, ?_, ?_⟩, ⟨?_, ?_, ?_, ?_⟩,
    ⟨?_, ?_⟩, ⟨?_, ?_⟩, ⟨toInt8_bitSliceBetween word 0 6 (by decide),
      toInt8_bitSliceBetween word 12 14 (by decide),
      toInt8_bitSliceBetween word 25 31 (by decide),
      toInt32_bitSliceBetween word 7 11 (by decide)⟩⟩ <;> omega

/-- Witness for C12 at the word `0xFFFFFFFF`, where every field has all its
bits set: func7 is 127, not -1. -/
theorem decoded_fields_in_range_witness :
    (0xFFFFFFFF : Nat) < 2 ^ 32
      ∧ (0 ≤ (DecodeRInstr 0xFFFFFFFF).func7 ∧ (DecodeRInstr 0xFFFFFFFF).func7 ≤ 127)
      ∧ (DecodeRInstr 0xFFFFFFFF).func7 = 127 :=
  ⟨by decide, (decoded_fields_in_range 0xFFFFFFFF (by decide)).1.2.2.2.2.2, by decide⟩

/-! ## Decoding loses no information -/

theorem word_eq_R_slices (word : Nat) (hw : word < 2 ^ 32) :
    word = bitSliceBetween word 0 6 + 2 ^ 7 * bitSliceBetween word 7 11
      + 2 ^ 12 * bitSliceBetween word 12 14 + 2 ^ 15 * bitSliceBetween word 15 19
      + 2 ^ 20 * bitSliceBetween word 20 24 + 2 ^ 25 * bitSliceBetween word 25 31 := by
  simp only [bitSliceBetween_eq_div_mod]
  norm_num
  omega

theorem word_eq_I_slices (word : Nat) (hw : word < 2 ^ 32) :
    word = bitSliceBetween word 0 6 + 2 ^ 7 * bitSliceBetween word 7 11
      + 2 ^ 12 * bitSliceBetween word 12 14 + 2 ^ 15 * bitSliceBetween word 15 19
      + 2 ^ 20 * bitSliceBetween word 20 31 := by
  simp only [bitSliceBetween_eq_div_mod]
  norm_num
  omega

theorem word_eq_B_slices (word : Nat) (hw : word < 2 ^ 32) :
    word = bitSliceBetween word 0 6 + 2 ^ 7 * bitSliceBetween word 7 7
      + 2 ^ 8 * bitSliceBetween word 8 11
      + 2 ^ 12 * bitSliceBetween word 12 14 + 2 ^ 15 * bitSliceBetween word 15 19
      + 2 ^ 20 * bitSliceBetween word 20 24 + 2 ^ 25 * bitSliceBetween word 25 30
      + 2 ^ 31 * bitSliceBetween word 31 31 := by
  simp only [bitSliceBetween_eq_div_mod]
  norm_num
  omega

theorem word_eq_J_slices (word : Nat) (hw : word < 2 ^ 32) :
    word = bitSliceBetween word 0 6 + 2 ^ 7 * bitSliceBetween word 7 11
      + 2 ^ 12 * bitSliceBetween word 12 19 + 2 ^ 20 * bitSliceBetween word 20 20
      + 2 ^ 21 * bitSliceBetween word 21 30 + 2 ^ 31 * bitSliceBetween word 31 31 := by
  simp only [bitSliceBetween_eq_div_mod]
  norm_num
  omega

theorem decodeI_imm_emod (word : Nat) :
    (DecodeIInstr word).imm % 2 ^ 12 = ((bitSliceBetween word 20 31 : Nat) : Int) := by
  have hlt : bitSliceBetween word 20 31 < 2 ^ 12 := bitSliceBetween_lt word 20 31
  rw [decodeI_imm_eq]
  generalize bitSliceBetween word 20 31 = f at *
  split <;> omega

theorem decodeR_injective (w1 w2 : Nat) (h1 : w1 < 2 ^ 32) (h2 : w2 < 2 ^ 32)
    (h : DecodeRInstr w1 = DecodeRInstr w2) : w1 = w2 := by
  rw [decodeR_eq, decodeR_eq] at h
  simp only [RInstr.mk.injEq, Nat.cast_inj] at h
  obtain ⟨e7, e2, e1, e3, ed, eo⟩ := h
  rw [word_eq_R_slices w1 h1, word_eq_R_slices w2 h2, e7, e2, e1, e3, ed, eo]

theorem decodeI_injective (w1 w2 : Nat) (h1 : w1 < 2 ^ 32) (h2 : w2 < 2 ^ 32)
    (h : DecodeIInstr w1 = DecodeIInstr w2) : w1 = w2 := by
  obtain ⟨a1, a3, ad, ao⟩ := decodeI_fields w1
  obtain ⟨b1, b3, bd, bo⟩ := decodeI_fields w2
  have ei : bitSliceBetween w1 20 31 = bitSliceBetween w2 20 31 := by
    have k := decodeI_imm_emod w1
    rw [h, decodeI_imm_emod w2] at k
    exact_mod_cast k.symm
  have e1 : bitSliceBetween w1 15 19 = bitSliceBetween w2 15 19 := by
    rw [h, b1] at a1
    exact_mod_cast a1.symm
  have e3 : bitSliceBetween w1 12 14 = bitSliceBetween w2 12 14 := by
    rw [h, b3] at a3
    exact_mod_cast a3.symm
  have ed : bitSliceBetween w1 7 11 = bitSliceBetween w2 7 11 := by
    rw [h, bd] at ad
    exact_mod_cast ad.symm
  have eo : bitSliceBetween w1 0 6 = bitSliceBetween w2 0 6 := by
    rw [h, bo] at ao
    exact_mod_cast ao.symm
  rw [word_eq_I_slices w1 h1, word_eq_I_slices w2 h2, ei, e1, e3, ed, eo]

theorem decodeS_injective (w1 w2 : Nat) (h1 : w1 < 2 ^ 32) (h2 : w2 < 2 ^ 32)
    (h : DecodeSInstr w1 = DecodeSInstr w2) : w1 = w2 := by
  have e7 : bitSliceBetween w1 25 31 = bitSliceBetween w2 25 31 := congrArg SInstr.imm1 h
  have e2 : bitSliceBetween w1 20 24 = bitSliceBetween w2 20 24 := congrArg SInstr.rs2 h
  have e1 : bitSliceBetween w1 15 19 = bitSliceBetween w2 15 19 := congrArg SInstr.rs1 h
  have e3 : bitSliceBetween w1 12 14 = bitSliceBetween w2 12 14 := congrArg SInstr.func3 h
  have ed : bitSliceBetween w1 7 11 = bitSliceBetween w2 7 11 := congrArg SInstr.imm0 h
  have eo : bitSliceBetween w1 0 6 = bitSliceBetween w2 0 6 := congrArg SInstr.opcode h
  rw [word_eq_R_slices w1 h1, word_eq_R_slices w2 h2, e7, e2, e1, e3, ed, eo]

theorem decodeB_injective (w1 w2 : Nat) (h1 : w1 < 2 ^ 32) (h2 : w2 < 2 ^ 32)
    (h : DecodeBInstr w1 = DecodeBInstr w2) : w1 = w2 := by
  have i3 : bitSliceBetween w1 31 31 = bitSliceBetween w2 31 31 := congrArg BInstr.imm3 h
  have i2 : bitSliceBetween w1 25 30 = bitSliceBetween w2 25 30 := congrArg BInstr.imm2 h
  have e2 : bitSliceBetween w1 20 24 = bitSliceBetween w2 20 24 := congrArg BInstr.rs2 h
  have e1 : bitSliceBetween w1 15 19 = bitSliceBetween w2 15 19 := congrArg BInstr.rs1 h
  have e3 : bitSliceBetween w1 12 14 = bitSliceBetween w2 12 14 := congrArg BInstr.func3 h
  have i1 : bitSliceBetween w1 8 11 = bitSliceBetween w2 8 11 := congrArg BInstr.imm1 h
  have i0 : bitSliceBetween w1 7 7 = bitSliceBetween w2 7 7 := congrArg BInstr.imm0 h
  have eo : bitSliceBetween w1 0 6 = bitSliceBetween w2 0 6 := congrArg BInstr.opcode h
  rw [word_eq_B_slices w1 h1, word_eq_B_slices w2 h2, i3, i2, e2, e1, e3, i1, i0, eo]

theorem decodeJ_injective (w1 w2 : Nat) (h1 : w1 < 2 ^ 32) (h2 : w2 < 2 ^ 32)
    (h : DecodeJInstr w1 = DecodeJInstr w2) : w1 = w2 := by
  have i3 : bitSliceBetween w1 31 31 = bitSliceBetween w2 31 31 := congrArg JInstr.imm3 h
  have i2 : bitSliceBetween w1 21 30 = bitSliceBetween w2 21 30 := congrArg JInstr.imm2 h
  have i1 : bitSliceBetween w1 20 20 = bitSliceBetween w2 20 20 := congrArg JInstr.imm1 h
  have i0 : bitSliceBetween w1 12 19 = bitSliceBetween w2 12 19 := congrArg JInstr.imm0 h
  obtain ⟨ad, ao⟩ := decodeJ_fields w1
  obtain ⟨bd, bo⟩ := decodeJ_fields w2
  have ed : bitSliceBetween w1 7 11 = bitSliceBetween w2 7 11 := by
    rw [h, bd] at ad
    exact_mod_cast ad.symm
  have eo : bitSliceBetween w1 0 6 = bitSliceBetween w2 0 6 := by
    rw [h, bo] at ao
    exact_mod_cast ao.symm
  rw [word_eq_J_slices w1 h1, word_eq_J_slices w2 h2, i3, i2, i1, i0, ed, eo]

/-- C13: decoding loses no information in the R, I, S, B and J formats: for
each of `DecodeRInstr`, `DecodeIInstr`, `DecodeSInstr`, `DecodeBInstr` and
`DecodeJInstr`, two 32-bit words that decode to equal instruction values are
equal. -/
theorem decoders_injective (w1 w2 : Nat) (h1 : w1 < 2 ^ 32) (h2 : w2 < 2 ^ 32) :
    (DecodeRInstr w1 = DecodeRInstr w2 → w1 = w2)
    ∧ (DecodeIInstr w1 = DecodeIInstr w2 → w1 = w2)
    ∧ (DecodeSInstr w1 = DecodeSInstr w2 → w1 = w2)
    ∧ (DecodeBInstr w1 = DecodeBInstr w2 → w1 = w2)
    ∧ (DecodeJInstr w1 = DecodeJInstr w2 → w1 = w2) :=
  ⟨decodeR_injective w1 w2 h1 h2, decodeI_injective w1 w2 h1 h2, decodeS_injective w1 w2 h1 h2,
    decodeB_injective w1 w2 h1 h2, decodeJ_injective w1 w2 h1 h2⟩

/-- Witness for C13 at the words `0x00C58533` and `0x00C58534`, which differ
in bit 0 and in bit 1: their R decodings differ. -/
theorem decoders_injective_witness :
    (0x00C58533 : Nat) < 2 ^ 32 ∧ (0x00C58534 : Nat) < 2 ^ 32
      ∧ DecodeRInstr 0x00C58533 ≠ DecodeRInstr 0x00C58534 :=
  ⟨by decide, by decide, fun h =>
    absurd ((decoders_injective 0x00C58533 0x00C58534 (by decide) (by decide)).1 h) (by decide)⟩

/-! ## Relations between the formats -/

theorem slice_7_11_split (word : Nat) :
    bitSliceBetween word 7 11 = bitSliceBetween word 7 7 + 2 * bitSliceBetween word 8 11 := by
  simp only [bitSliceBetween_eq_div_mod]
  norm_num
  omega

theorem slice_25_31_split (word : Nat) :
    bitSliceBetween word 25 31 = bitSliceBetween word 25 30 + 64 * bitSliceBetween word 31 31 := by
  simp only [bitSliceBetween_eq_div_mod]
  norm_num
  omega

theorem slice_20_31_split (word : Nat) :
    bitSliceBetween word 20 24 = bitSliceBetween word 20 31 % 32
      ∧ bitSliceBetween word 25 31 = bitSliceBetween word 20 31 / 32 % 128 := by
  simp only [bitSliceBetween_eq_div_mod]
  refine ⟨?_, ?_⟩ <;> norm_num
  omega

theorem sign_extended_low_bits (f : Nat) (hf : f < 2 ^ 12) (b : Bool) (imm : Int)
    (h : imm = if b = true then (f : Int) - 2 ^ 12 else (f : Int)) :
    imm % 32 = ((f % 32 : Nat) : Int) ∧ imm / 32 % 128 = ((f / 32 % 128 : Nat) : Int)
      ∧ bitSliceBetween (imm % 2 ^ 32).toNat 0 4 = f % 32
      ∧ bitSliceBetween (imm % 2 ^ 32).toNat 5 11 = f / 32 % 128 := by
  simp only [bitSliceBetween_eq_div_mod]
  cases b
  · simp only [Bool.false_eq_true, if_false] at h
    subst h
    have hu : ((f : Int) % 2 ^ 32).toNat = f := by omega
    rw [hu]
    refine ⟨?_, ?_, ?_, ?_⟩ <;> norm_num
  · simp only [if_true] at h
    subst h
    have hu : (((f : Int) - 2 ^ 12) % 2 ^ 32).toNat = f + (2 ^ 32 - 2 ^ 12) := by omega
    rw [hu]
    refine ⟨?_, ?_, ?_, ?_⟩ <;> (try norm_num) <;> omega

/-- C14: for every 32-bit word the B immediate computed by the code is the
S-type offset of the same word: `BInstr.imm()` of `DecodeBInstr(word)` equals
`s.imm0 + 32 * s.imm1` for `s = DecodeSInstr(word)`, that is
(bits 25-31) * 32 + (bits 7-11), an unsigned value below 4096. -/
theorem decodeB_imm_eq_S_offset (word : Nat) (_hw : word < 2 ^ 32) :
    (DecodeBInstr word).imm = (DecodeSInstr word).imm0 + 32 * (DecodeSInstr word).imm1
    ∧ (DecodeBInstr word).imm = (word >>> 25) % 2 ^ 7 * 32 + (word >>> 7) % 2 ^ 5
    ∧ (DecodeBInstr word).imm < 4096 := by
  have hB := decodeB_imm_eq_sum word
  have hlt := decodeB_imm_lt word
  have s0 : (DecodeSInstr word).imm0 = bitSliceBetween word 7 11 := rfl
  have s1 : (DecodeSInstr word).imm1 = bitSliceBetween word 25 31 := rfl
  have t0 : (word >>> 7) % 2 ^ 5 = bitSliceBetween word 7 11 := rfl
  have t1 : (word >>> 25) % 2 ^ 7 = bitSliceBetween word 25 31 := rfl
  have b0 : (DecodeBInstr word).imm0 = bitSliceBetween word 7 7 := rfl
  have b1 : (DecodeBInstr word).imm1 = bitSliceBetween word 8 11 := rfl
  have b2 : (DecodeBInstr word).imm2 = bitSliceBetween word 25 30 := rfl
  have b3 : (DecodeBInstr word).imm3 = bitSliceBetween word 31 31 := rfl
  rw [b0, b1, b2, b3] at hB
  rw [s0, s1, t0, t1, slice_7_11_split, slice_25_31_split, hB]
  rw [hB] at hlt
  refine ⟨by omega, by omega, by omega⟩

/-- Witness for C14 at the word `0xFE000F80`, whose bits 7-11 and 25-31 are all
set: the B immediate and the S offset are both 4095. -/
theorem decodeB_imm_eq_S_offset_witness :
    (0xFE000F80 : Nat) < 2 ^ 32
      ∧ (DecodeBInstr 0xFE000F80).imm
          = (DecodeSInstr 0xFE000F80).imm0 + 32 * (DecodeSInstr 0xFE000F80).imm1
      ∧ (DecodeBInstr 0xFE000F80).imm = 4095 :=
  ⟨by decide, (decodeB_imm_eq_S_offset 0xFE000F80 (by decide)).1, by decide⟩

/-- C15: for every 32-bit word the I immediate carries the R fields rs2 and
func7 of the same word: with `i = DecodeIInstr(word)` and
`r = DecodeRInstr(word)`, the low 5 bits of `i.imm` are `r.rs2` and bits 5-11
of `i.imm` are `r.func7` (both as two's complement arithmetic on the integer
and as slices of its 32-bit pattern), and `i.rd`, `i.rs1`, `i.func3` and
`i.opcode` equal `r.rd`, `r.rs1`, `r.func3` and `r.opcode`. -/
theorem decodeI_imm_carries_R_fields (word : Nat) (_hw : word < 2 ^ 32) :
    (DecodeIInstr word).imm % 32 = (DecodeRInstr word).rs2
    ∧ (DecodeIInstr word).imm / 32 % 128 = (DecodeRInstr word).func7
    ∧ ((bitSliceBetween ((DecodeIInstr word).imm % 2 ^ 32).toNat 0 4 : Nat) : Int)
        = (DecodeRInstr word).rs2
    ∧ ((bitSliceBetween ((DecodeIInstr word).imm % 2 ^ 32).toNat 5 11 : Nat) : Int)
        = (DecodeRInstr word).func7
    ∧ (DecodeIInstr word).rd = (DecodeRInstr word).rd
    ∧ (DecodeIInstr word).rs1 = (DecodeRInstr word).rs1
    ∧ (DecodeIInstr word).func3 = (DecodeRInstr word).func3
    ∧ (DecodeIInstr word).opcode = (DecodeRInstr word).opcode := by
  obtain ⟨i1, i3, id, io⟩ := decodeI_fields word
  obtain ⟨k1, k2⟩ := slice_20_31_split word
  obtain ⟨m1, m2, m3, m4⟩ := sign_extended_low_bits (bitSliceBetween word 20 31)
    (bitSliceBetween_lt word 20 31) (word.testBit 31) (DecodeIInstr word).imm
    (decodeI_imm_eq word)
  rw [decodeR_eq, i1, i3, id, io, m1, m2, m3, m4, k1, k2]
  exact ⟨rfl, rfl, rfl, rfl, rfl, rfl, rfl, rfl⟩

/-- Witness for C15 at the word `0x41F55513` (`srai a0, a0, 31`): the shift
amount 31 is the rs2 field and the upper immediate bits `0x20` are func7. -/
theorem decodeI_imm_carries_R_fields_witness :
    (0x41F55513 : Nat) < 2 ^ 32
      ∧ (DecodeIInstr 0x41F55513).imm % 32 = (DecodeRInstr 0x41F55513).rs2
      ∧ (DecodeRInstr 0x41F55513).rs2 = 31
      ∧ (DecodeRInstr 0x41F55513).func7 = 0x20 :=
  ⟨by decide, (decodeI_imm_carries_R_fields 0x41F55513 (by decide)).1, by decide, by decide⟩

end Riscv
